import Mathlib

/-!
Verification development for the HabitFlow habit tracker
(`src/script.js`).  The JavaScript core is shallowly embedded: the
module-level `habits` array becomes an explicit `List Habit` threaded
through the operations, DOM access and toast/error rendering are dropped
(they are view-layer collaborators), and the `Date.now()` /
`new Date().toISOString()` clock readings become explicit parameters.
-/

/-- One habit record, mirroring the object literal built in
`handleAddHabit` (script.js:95-103): `{id, name, category, completed,
createdAt, completedAt, streak}`.  `id` is a `Date.now()` millisecond
reading (a nonnegative integer), `completedAt` is a nullable ISO string,
`streak` a nonnegative counter. -/
structure Habit where
  id : Nat
  name : String
  category : String
  completed : Bool
  createdAt : String
  completedAt : Option String
  streak : Nat
  deriving DecidableEq, Repr

/-- The three validation failures of `handleAddHabit`
(script.js:77-93): empty trimmed name, trimmed length below 3, trimmed
length above 50.  The JS code signals them by showing distinct error
messages and returning early. -/
inductive ValidationError where
  | EmptyName
  | TooShort
  | TooLong
  deriving DecidableEq, Repr

/-- The whitespace trimming that `habitNameInput.value.trim()` performs
(script.js:74), modelled on the characters of the string: drop leading
and trailing whitespace.  (JavaScript trims the full Unicode white-space
class; the model uses Lean's `Char.isWhitespace`, which covers the ASCII
cases relevant here.) -/
def jsTrim (s : String) : String :=
  String.mk (((s.data.dropWhile Char.isWhitespace).reverse.dropWhile
      Char.isWhitespace).reverse)

/-- `handleAddHabit` (script.js:73-114): trims the input name, runs the
three validation checks in source order (`!name`, `length < 3`,
`length > 50`), and on success appends a fresh habit with
`completed = false`, `completedAt = null`, `streak = 0`, `id = Date.now()`
(the `nowMs` parameter) and `createdAt = new Date().toISOString()` (the
`nowIso` parameter). -/
def handleAddHabit (habits : List Habit) (rawName category : String)
    (nowMs : Nat) (nowIso : String) : Except ValidationError (List Habit) :=
  let name := jsTrim rawName
  if name = "" then .error .EmptyName
  else if name.length < 3 then .error .TooShort
  else if name.length > 50 then .error .TooLong
  else .ok (habits ++ [{ id := nowMs, name := name, category := category,
                         completed := false, createdAt := nowIso,
                         completedAt := none, streak := 0 }])

/-- The collection after an add attempt: on a validation error the JS
handler returns early, leaving the `habits` array untouched. -/
def addResult (habits : List Habit) (rawName category : String)
    (nowMs : Nat) (nowIso : String) : List Habit :=
  match handleAddHabit habits rawName category nowMs nowIso with
  | .ok hs => hs
  | .error _ => habits

/-- The in-place mutation of one habit in `toggleHabitComplete`
(script.js:216-223): flip `completed`; when it becomes true set
`completedAt` to the clock reading and bump `streak`; when it becomes
false clear `completedAt` and leave `streak` alone. -/
def applyToggle (h : Habit) (nowIso : String) : Habit :=
  if !h.completed then
    { h with completed := true, completedAt := some nowIso, streak := h.streak + 1 }
  else
    { h with completed := false, completedAt := none }

/-- `toggleHabitComplete` (script.js:212-230): `habits.find` locates the
first habit with the given id (no-op when absent) and mutates that one
record in place. -/
def toggleHabitComplete : List Habit → Nat → String → List Habit
  | [], _, _ => []
  | h :: rest, hid, nowIso =>
    if h.id = hid then applyToggle h nowIso :: rest
    else h :: toggleHabitComplete rest hid nowIso

/-- `deleteHabit` (script.js:233-249): `findIndex` locates the first
habit with the given id (no-op when absent); the view-layer `confirm`
prompt's answer is passed in as `confirmed` (declining leaves the array
untouched); on confirmation `splice` removes exactly that entry. -/
def deleteHabit : List Habit → Nat → Bool → List Habit
  | [], _, _ => []
  | h :: rest, hid, confirmed =>
    if h.id = hid then (if confirmed then rest else h :: rest)
    else h :: deleteHabit rest hid confirmed

/-- `getFilteredHabits` (script.js:134-141): `'active'` keeps the
not-completed habits, `'completed'` the completed ones, anything else
(in particular `'all'`) returns the array itself. -/
def getFilteredHabits (habits : List Habit) (currentFilter : String) : List Habit :=
  if currentFilter = "active" then habits.filter (fun h => !h.completed)
  else if currentFilter = "completed" then habits.filter (fun h => h.completed)
  else habits

/-- The states of the module-level `habits` array that the UI can
produce from the initial empty array: any interleaving of add attempts,
toggles and deletes (each with arbitrary inputs and clock readings). -/
inductive Reachable : List Habit → Prop where
  | empty : Reachable []
  | add (hs : List Habit) (rawName category : String) (nowMs : Nat) (nowIso : String) :
      Reachable hs → Reachable (addResult hs rawName category nowMs nowIso)
  | toggle (hs : List Habit) (hid : Nat) (nowIso : String) :
      Reachable hs → Reachable (toggleHabitComplete hs hid nowIso)
  | delete (hs : List Habit) (hid : Nat) (confirmed : Bool) :
      Reachable hs → Reachable (deleteHabit hs hid confirmed)

/-- Reachable states in which every add happened at a clock reading that
was not already an id in the collection (for example, because the
millisecond clock strictly increased between adds).  This is the
restriction under which the `Date.now()` id scheme is collision-free. -/
inductive ReachableFreshClock : List Habit → Prop where
  | empty : ReachableFreshClock []
  | add (hs : List Habit) (rawName category : String) (nowMs : Nat) (nowIso : String) :
      ReachableFreshClock hs → (∀ h ∈ hs, h.id ≠ nowMs) →
      ReachableFreshClock (addResult hs rawName category nowMs nowIso)
  | toggle (hs : List Habit) (hid : Nat) (nowIso : String) :
      ReachableFreshClock hs → ReachableFreshClock (toggleHabitComplete hs hid nowIso)
  | delete (hs : List Habit) (hid : Nat) (confirmed : Bool) :
      ReachableFreshClock hs → ReachableFreshClock (deleteHabit hs hid confirmed)

lemma applyToggle_spec (h : Habit) (iso : String) :
    ((applyToggle h iso).completed = true ↔ (applyToggle h iso).completedAt.isSome = true) := by
  unfold applyToggle
  rcases hc : h.completed <;> simp [hc]

lemma applyToggle_id (h : Habit) (iso : String) : (applyToggle h iso).id = h.id := by
  unfold applyToggle
  split <;> rfl

lemma mem_toggleHabitComplete {x : Habit} (hs : List Habit) (hid : Nat) (iso : String)
    (hx : x ∈ toggleHabitComplete hs hid iso) :
    x ∈ hs ∨ ∃ y, y ∈ hs ∧ x = applyToggle y iso := by
  induction hs with
  | nil => simp [toggleHabitComplete] at hx
  | cons h rest ih =>
    by_cases hh : h.id = hid
    · simp only [toggleHabitComplete, if_pos hh, List.mem_cons] at hx
      rcases hx with rfl | hx
      · exact Or.inr ⟨h, by simp, rfl⟩
      · exact Or.inl (by simp [hx])
    · simp only [toggleHabitComplete, if_neg hh, List.mem_cons] at hx
      rcases hx with rfl | hx
      · exact Or.inl (by simp)
      · rcases ih hx with h1 | ⟨y, hy, rfl⟩
        · exact Or.inl (by simp [h1])
        · exact Or.inr ⟨y, by simp [hy], rfl⟩

lemma toggleHabitComplete_map_id (hs : List Habit) (hid : Nat) (iso : String) :
    (toggleHabitComplete hs hid iso).map Habit.id = hs.map Habit.id := by
  induction hs with
  | nil => rfl
  | cons h rest ih =>
    by_cases hh : h.id = hid <;> simp [toggleHabitComplete, hh, applyToggle_id, ih]

lemma deleteHabit_sublist (hs : List Habit) (hid : Nat) (c : Bool) :
    (deleteHabit hs hid c).Sublist hs := by
  induction hs with
  | nil => simp [deleteHabit]
  | cons h rest ih =>
    by_cases hh : h.id = hid
    · cases c <;> simp [deleteHabit, hh]
    · simpa [deleteHabit, hh] using ih.cons₂ h

lemma handleAddHabit_ok {hs : List Habit} {n c : String} {t : Nat} {iso : String}
    {out : List Habit} (h : handleAddHabit hs n c t iso = .ok out) :
    out = hs ++ [{ id := t, name := jsTrim n, category := c, completed := false,
                   createdAt := iso, completedAt := none, streak := 0 }] := by
  simp only [handleAddHabit] at h
  split_ifs at h
  simp_all

lemma addResult_eq (hs : List Habit) (n c : String) (t : Nat) (iso : String) :
    addResult hs n c t iso = hs ∨
    addResult hs n c t iso =
      hs ++ [{ id := t, name := jsTrim n, category := c, completed := false,
               createdAt := iso, completedAt := none, streak := 0 }] := by
  unfold addResult
  cases hh : handleAddHabit hs n c t iso with
  | error e => exact Or.inl rfl
  | ok out => exact Or.inr (handleAddHabit_ok hh)

/-- Claim C1: in every collection state reachable from the empty
collection by add, toggle and delete operations, a habit's `completed`
flag is true exactly when its `completedAt` field is present, and every
operation preserves this biconditional. -/
theorem reachable_completed_iff_completedAt (hs : List Habit) (hr : Reachable hs) :
    ∀ h ∈ hs, h.completed = true ↔ h.completedAt.isSome = true := by
  induction hr with
  | empty => simp
  | add hs n c t iso hr ih =>
    rcases addResult_eq hs n c t iso with heq | heq <;> rw [heq]
    · exact ih
    · intro h hh
      rcases List.mem_append.mp hh with hh | hh
      · exact ih h hh
      · simp only [List.mem_singleton] at hh
        subst hh
        simp
  | toggle hs hid iso hr ih =>
    intro h hh
    rcases mem_toggleHabitComplete hs hid iso hh with hh | ⟨y, hy, rfl⟩
    · exact ih h hh
    · exact applyToggle_spec y iso
  | delete hs hid c hr ih =>
    intro h hh
    exact ih h ((deleteHabit_sublist hs hid c).mem hh)

/-- Witness for C1 at a concrete reachable state: the habit added at
clock 5 and then toggled complete satisfies the biconditional. -/
theorem reachable_completed_iff_completedAt_w :
    ({ id := 5, name := "Run", category := "health", completed := true,
       createdAt := "t1", completedAt := some "t2", streak := 1 } : Habit).completed = true ↔
      ({ id := 5, name := "Run", category := "health", completed := true,
         createdAt := "t1", completedAt := some "t2", streak := 1 } : Habit).completedAt.isSome = true :=
  reachable_completed_iff_completedAt
    (toggleHabitComplete (addResult [] "Run" "health" 5 "t1") 5 "t2")
    (Reachable.toggle _ 5 "t2" (Reachable.add [] "Run" "health" 5 "t1" Reachable.empty))
    { id := 5, name := "Run", category := "health", completed := true,
      createdAt := "t1", completedAt := some "t2", streak := 1 }
    (by decide)

/-- Counterexample to claim C2: two successful adds performed at the same
`Date.now()` reading (millisecond 5) produce a reachable collection whose
two habits share the id 5, so ids are not structurally guaranteed unique. -/
theorem same_clock_adds_collide :
    Reachable (addResult (addResult [] "abc" "health" 5 "t1") "abcd" "health" 5 "t2") ∧
    ¬ ((addResult (addResult [] "abc" "health" 5 "t1") "abcd" "health" 5 "t2").map
        Habit.id).Nodup :=
  ⟨Reachable.add _ "abcd" "health" 5 "t2"
      (Reachable.add [] "abc" "health" 5 "t1" Reachable.empty),
    by decide⟩

/-- Claim C2 (amended): ids are pairwise distinct in every reachable
state, provided each add happened at a clock reading that is not already
an id in the collection; with a same-millisecond repeat the guarantee
fails (see the counterexample). -/
theorem freshClock_ids_nodup (hs : List Habit) (hr : ReachableFreshClock hs) :
    (hs.map Habit.id).Nodup := by
  induction hr with
  | empty => simp
  | add hs n c t iso hr hfresh ih =>
    rcases addResult_eq hs n c t iso with heq | heq <;> rw [heq]
    · exact ih
    · rw [List.map_append]
      refine List.Nodup.append ih (by simp) ?_
      intro x hx hx'
      simp only [List.map_cons, List.map_nil, List.mem_singleton] at hx'
      rcases List.mem_map.mp hx with ⟨y, hy, rfl⟩
      exact hfresh y hy hx'
  | toggle hs hid iso hr ih =>
    rw [toggleHabitComplete_map_id]
    exact ih
  | delete hs hid c hr ih =>
    exact ih.sublist ((deleteHabit_sublist hs hid c).map Habit.id)

/-- Witness for the amended C2 at a concrete state: two adds at the
distinct clock readings 5 and 6 yield distinct ids. -/
theorem freshClock_ids_nodup_w :
    ((addResult (addResult [] "abc" "health" 5 "t1") "abcd" "health" 6 "t2").map
        Habit.id).Nodup :=
  freshClock_ids_nodup _
    (ReachableFreshClock.add _ "abcd" "health" 6 "t2"
      (ReachableFreshClock.add [] "abc" "health" 5 "t1" ReachableFreshClock.empty
        (by simp))
      (by decide))

/-- Claim C3: whenever the trimmed name is longer than 50 characters the
add handler fails with the TooLong error (script.js:89-93) and the
collection is left exactly as it was. -/
theorem add_too_long (hs : List Habit) (rawName category : String) (nowMs : Nat)
    (nowIso : String) (hlen : 50 < (jsTrim rawName).length) :
    handleAddHabit hs rawName category nowMs nowIso = .error .TooLong ∧
    addResult hs rawName category nowMs nowIso = hs := by
  have h0 : ¬ jsTrim rawName = "" := by
    intro h
    rw [h] at hlen
    exact absurd hlen (by decide)
  have h2 : ¬ (jsTrim rawName).length < 3 := by omega
  have herr : handleAddHabit hs rawName category nowMs nowIso = .error .TooLong := by
    simp only [handleAddHabit]
    rw [if_neg h0, if_neg h2, if_pos hlen]
  refine ⟨herr, ?_⟩
  unfold addResult
  rw [herr]

/-- Witness for C3: a 51-character name is rejected with TooLong and the
empty collection stays empty. -/
theorem add_too_long_w :
    50 < (jsTrim "aaaaaaaaaaaaaaaaaaaaaaaaaaaaaaaaaaaaaaaaaaaaaaaaaaa").length ∧
    (handleAddHabit [] "aaaaaaaaaaaaaaaaaaaaaaaaaaaaaaaaaaaaaaaaaaaaaaaaaaa" "health" 7 "t"
        = .error .TooLong ∧
      addResult [] "aaaaaaaaaaaaaaaaaaaaaaaaaaaaaaaaaaaaaaaaaaaaaaaaaaa" "health" 7 "t" = []) :=
  ⟨by decide, add_too_long [] _ "health" 7 "t" (by decide)⟩

/-- Counterexample to claim C4: a habit that starts completed (with a
recorded completion time) and is toggled twice ends with `completedAt`
equal to the second toggle's timestamp, not absent. -/
theorem toggle_twice_completedAt_cex :
    (toggleHabitComplete (toggleHabitComplete
        [{ id := 1, name := "Run", category := "health", completed := true,
           createdAt := "c0", completedAt := some "a", streak := 0 }] 1 "b") 1 "c").map
      Habit.completedAt = [some "c"] ∧ (some "c" : Option String) ≠ none :=
  ⟨by decide, by decide⟩

/-- Claim C4 (amended): toggling the (first) habit carrying a present id
twice returns its `completed` flag to the original value and leaves its
`streak` exactly one greater; `completedAt` ends absent when the habit
started incomplete, and ends at the second toggle's timestamp when it
started completed. -/
theorem toggle_twice_effect (hs : List Habit) (hid : Nat) (iso1 iso2 : String)
    (i : Nat) (h : Habit) (hi : hs[i]? = some h) (hmatch : h.id = hid)
    (hfirst : ∀ j, j < i → ∀ g, hs[j]? = some g → g.id ≠ hid) :
    ∃ h2, (toggleHabitComplete (toggleHabitComplete hs hid iso1) hid iso2)[i]? = some h2 ∧
      h2.completed = h.completed ∧
      h2.streak = h.streak + 1 ∧
      h2.completedAt = (if h.completed = true then some iso2 else none) ∧
      h2.id = h.id ∧ h2.name = h.name ∧ h2.category = h.category ∧
      h2.createdAt = h.createdAt := by
  induction hs generalizing i with
  | nil => cases hi
  | cons a rest ih =>
    cases i with
    | zero =>
      have ha : a = h := by simpa using hi
      subst ha
      have hcond : a.id = hid := hmatch
      have hcond2 : (applyToggle a iso1).id = hid := by rw [applyToggle_id]; exact hmatch
      refine ⟨applyToggle (applyToggle a iso1) iso2, ?_, ?_⟩
      · simp [toggleHabitComplete, hcond, hcond2]
      · rcases hc : a.completed <;> simp [applyToggle, hc]
    | succ j =>
      have hne : a.id ≠ hid := hfirst 0 (Nat.succ_pos j) a (by simp)
      have hi' : rest[j]? = some h := by simpa using hi
      have hfirst' : ∀ k, k < j → ∀ g, rest[k]? = some g → g.id ≠ hid := by
        intro k hk g hg
        exact hfirst (k + 1) (Nat.succ_lt_succ hk) g (by simpa using hg)
      rcases ih j hi' hfirst' with ⟨h2, hh2, hprops⟩
      refine ⟨h2, ?_, hprops⟩
      simp [toggleHabitComplete, hne, hh2]

/-- Witness for the amended C4 at concrete inputs: a habit starting
incomplete, toggled twice. -/
theorem toggle_twice_effect_w :
    ∃ h2, (toggleHabitComplete (toggleHabitComplete
        [{ id := 4, name := "Read", category := "learning", completed := false,
           createdAt := "c0", completedAt := none, streak := 2 }] 4 "b") 4 "c")[0]? = some h2 ∧
      h2.completed = false ∧
      h2.streak = 2 + 1 ∧
      h2.completedAt = (if false = true then some "c" else none) ∧
      h2.id = 4 ∧ h2.name = "Read" ∧ h2.category = "learning" ∧
      h2.createdAt = "c0" := by
  simpa using
    toggle_twice_effect
      [{ id := 4, name := "Read", category := "learning", completed := false,
         createdAt := "c0", completedAt := none, streak := 2 }] 4 "b" "c" 0
      { id := 4, name := "Read", category := "learning", completed := false,
        createdAt := "c0", completedAt := none, streak := 2 }
      (by simp) rfl (by omega)

/-- Claim C7: with the view-layer confirmation answered positively (the
prompt is outside this operation's contract), delete removes exactly the
first habit carrying the requested id — the splice of script.js:243 —
and is a no-op when no habit carries it. -/
theorem delete_spec (hs : List Habit) (hid : Nat) :
    ((∀ h ∈ hs, h.id ≠ hid) → deleteHabit hs hid true = hs) ∧
    (∀ i h, hs[i]? = some h → h.id = hid →
      (∀ j, j < i → ∀ g, hs[j]? = some g → g.id ≠ hid) →
      deleteHabit hs hid true = hs.take i ++ hs.drop (i + 1)) := by
  induction hs with
  | nil => exact ⟨fun _ => rfl, fun i h hi => by cases hi⟩
  | cons a rest ih =>
    constructor
    · intro habs
      have hne : a.id ≠ hid := habs a (by simp)
      simp only [deleteHabit, if_neg hne]
      rw [ih.1 (fun h hh => habs h (by simp [hh]))]
    · intro i h hi hmatch hfirst
      cases i with
      | zero =>
        have ha : a = h := by simpa using hi
        subst ha
        simp [deleteHabit, hmatch]
      | succ j =>
        have hne : a.id ≠ hid := hfirst 0 (Nat.succ_pos j) a (by simp)
        have hi' : rest[j]? = some h := by simpa using hi
        have hfirst' : ∀ k, k < j → ∀ g, rest[k]? = some g → g.id ≠ hid := by
          intro k hk g hg
          exact hfirst (k + 1) (Nat.succ_lt_succ hk) g (by simpa using hg)
        simp only [deleteHabit, if_neg hne]
        rw [ih.2 j h hi' hmatch hfirst']
        simp [List.take_succ_cons, List.drop_succ_cons]

/-- Witness for C7: deleting an absent id (3) leaves a two-habit
collection unchanged, and deleting a present id (1, at index 0) removes
exactly that habit. -/
theorem delete_spec_w :
    (deleteHabit
        [{ id := 1, name := "Run", category := "health", completed := false,
           createdAt := "c1", completedAt := none, streak := 0 },
         { id := 2, name := "Read", category := "learning", completed := true,
           createdAt := "c2", completedAt := some "d2", streak := 3 }] 3 true =
      [{ id := 1, name := "Run", category := "health", completed := false,
         createdAt := "c1", completedAt := none, streak := 0 },
       { id := 2, name := "Read", category := "learning", completed := true,
         createdAt := "c2", completedAt := some "d2", streak := 3 }]) ∧
    (deleteHabit
        [{ id := 1, name := "Run", category := "health", completed := false,
           createdAt := "c1", completedAt := none, streak := 0 },
         { id := 2, name := "Read", category := "learning", completed := true,
           createdAt := "c2", completedAt := some "d2", streak := 3 }] 1 true =
      [{ id := 2, name := "Read", category := "learning", completed := true,
         createdAt := "c2", completedAt := some "d2", streak := 3 }]) := by
  constructor
  · exact (delete_spec _ 3).1 (by decide)
  · simpa using (delete_spec _ 1).2 0
      { id := 1, name := "Run", category := "health", completed := false,
        createdAt := "c1", completedAt := none, streak := 0 }
      (by simp) rfl (by omega)

/-- Claim C8: the All filter is the identity, the Active and Completed
filters are order-preserving subsequences of the collection, together
they cover every habit, and no habit is in both. -/
theorem filter_partition (hs : List Habit) :
    getFilteredHabits hs "all" = hs ∧
    (getFilteredHabits hs "active").Sublist hs ∧
    (getFilteredHabits hs "completed").Sublist hs ∧
    (∀ h, h ∈ hs ↔ (h ∈ getFilteredHabits hs "active" ∨
      h ∈ getFilteredHabits hs "completed")) ∧
    (∀ h, ¬ (h ∈ getFilteredHabits hs "active" ∧
      h ∈ getFilteredHabits hs "completed")) := by
  have hall : getFilteredHabits hs "all" = hs := by
    simp [getFilteredHabits]
  have hact : getFilteredHabits hs "active" = hs.filter (fun h => !h.completed) := by
    simp [getFilteredHabits]
  have hcom : getFilteredHabits hs "completed" = hs.filter (fun h => h.completed) := by
    simp [getFilteredHabits]
  refine ⟨hall, ?_, ?_, ?_, ?_⟩
  · rw [hact]; exact List.filter_sublist hs
  · rw [hcom]; exact List.filter_sublist hs
  · intro h
    rw [hact, hcom]
    simp only [List.mem_filter]
    rcases hc : h.completed <;> simp [hc]
  · intro h
    rw [hact, hcom]
    simp only [List.mem_filter]
    rcases hc : h.completed <;> simp [hc]

/-- Witness for C8 at a concrete collection and habit: an incomplete
habit is never in both the Active and the Completed filter results. -/
theorem filter_partition_w :
    ¬ ({ id := 9, name := "Row", category := "health", completed := false,
         createdAt := "c9", completedAt := none, streak := 1 : Habit } ∈
        getFilteredHabits
          [{ id := 9, name := "Row", category := "health", completed := false,
             createdAt := "c9", completedAt := none, streak := 1 }] "active" ∧
      { id := 9, name := "Row", category := "health", completed := false,
        createdAt := "c9", completedAt := none, streak := 1 : Habit } ∈
        getFilteredHabits
          [{ id := 9, name := "Row", category := "health", completed := false,
             createdAt := "c9", completedAt := none, streak := 1 }] "completed") :=
  (filter_partition _).2.2.2.2 _

/-- Fueled binary logarithm: `log2p fuel n` is the number of halvings
that bring `n` to 1 or below, computed structurally so that it
evaluates inside the kernel.  With `fuel = n` it equals `Nat.log2 n`. -/
def log2p : Nat → Nat → Nat
  | 0, _ => 0
  | fuel + 1, n => if n ≤ 1 then 0 else log2p fuel (n / 2) + 1

def ilog2 (n : Nat) : Nat := log2p n n

/-- Round the quotient n/d (d > 0) to the nearest integer, ties to
even — the IEEE-754 default rounding used by every JavaScript
arithmetic operator. -/
def rnEven (n d : Nat) : Nat :=
  let q := n / d
  let r := n % d
  if 2 * r < d then q
  else if d < 2 * r then q + 1
  else if q % 2 = 0 then q else q + 1

/-- A positive binary64 (double) value in mantissa-exponent form,
denoting the exact rational m·2^e. -/
structure DblPos where
  m : Nat
  e : Int
  deriving Repr, DecidableEq

/-- The binary64 value nearest to the positive rational a/b
(a, b ≥ 1): the mantissa is the 53-bit nearest-even rounding of the
quotient scaled into [2^52, 2^53).  This models IEEE double division
and is exact for the normal range (no overflow or subnormal handling,
which the stats computation never reaches for any collection the
theorems below evaluate). -/
def normPos (a b : Nat) : DblPos :=
  let L := ilog2 a
  let M := ilog2 b
  if L ≤ 52 + M then
    let t0 := 52 + M - L
    let t := if a * 2 ^ t0 < 2 ^ 52 * b then t0 + 1 else t0
    ⟨rnEven (a * 2 ^ t) b, -(t : Int)⟩
  else
    let s0 := L - (52 + M)
    let s := if a < 2 ^ 52 * (b * 2 ^ s0) then s0 - 1 else s0
    ⟨rnEven a (b * 2 ^ s), (s : Int)⟩

/-- Binary64 multiplication of a double by a small natural number
(the `* 100` of script.js:266): exact product, re-rounded to 53 bits. -/
def dblMulNat (d : DblPos) (n : Nat) : DblPos :=
  let r := normPos (d.m * n) 1
  ⟨r.m, r.e + d.e⟩

/-- `Math.round` on the exact value m·2^e: nearest integer, ties
toward +∞ (for e < 0 this is (m + 2^(k-1)) / 2^k in integer division
with k = -e). -/
def dblRound (d : DblPos) : Nat :=
  if 0 ≤ d.e then d.m * 2 ^ d.e.toNat
  else
    (d.m + 2 ^ ((-d.e).toNat - 1)) / 2 ^ (-d.e).toNat

/-- `updateProgressBar` (script.js:265-269):
`total > 0 ? Math.round((completed / total) * 100) : 0`, with the
JavaScript double arithmetic modelled exactly: `completed / total` is
the nearest binary64 to the quotient (`+0` when `completed = 0`), the
`* 100` re-rounds to 53 bits, and `Math.round` rounds the resulting
double to the nearest integer with ties toward +∞. -/
def updateProgressBar (total completed : Nat) : Int :=
  if total > 0 then
    (if completed = 0 then 0
     else (dblRound (dblMulNat (normPos completed total) 100) : Int))
  else 0

/-- The four aggregate values of `updateStats` (script.js:252-262). -/
structure Stats where
  total : Nat
  completedCount : Nat
  maxStreak : Nat
  percentage : Int
  deriving DecidableEq, Repr

/-- `updateStats` (script.js:252-262): `total = habits.length`,
`completed = habits.filter(h => h.completed).length`,
`maxStreak = habits.length > 0 ? Math.max(...habits.map(h => h.streak)) : 0`
(the spread of a nonempty list of naturals equals a fold of `Nat.max`
from 0), and the percentage of `updateProgressBar`. -/
def updateStats (habits : List Habit) : Stats :=
  let total := habits.length
  let completed := (habits.filter (fun h => h.completed)).length
  let maxStreak :=
    if habits.length > 0 then (habits.map (fun h => h.streak)).foldl Nat.max 0 else 0
  { total := total, completedCount := completed, maxStreak := maxStreak,
    percentage := updateProgressBar total completed }

/-- The rounding rule the spec prescribes, written from the spec's
words: round half away from zero, on an exact rational. -/
def roundHalfAwayFromZero (q : ℚ) : Int :=
  if 0 ≤ q then (⌊q + 1 / 2⌋₊ : Int) else -(⌊-q + 1 / 2⌋₊ : Int)

lemma roundHalfAwayFromZero_div_nat (c t : Nat) (ht : t ≠ 0) :
    roundHalfAwayFromZero ((c : ℚ) / (t : ℚ) * 100) =
      (((200 * c + t) / (2 * t) : Nat) : Int) := by
  have ht' : (t : ℚ) ≠ 0 := Nat.cast_ne_zero.mpr ht
  have hpos : (0 : ℚ) ≤ (c : ℚ) / (t : ℚ) * 100 := by positivity
  rw [roundHalfAwayFromZero, if_pos hpos]
  have heq : (c : ℚ) / (t : ℚ) * 100 + 1 / 2 =
      ((200 * c + t : Nat) : ℚ) / ((2 * t : Nat) : ℚ) := by
    push_cast
    field_simp
    ring
  rw [heq, Nat.floor_div_nat, Nat.floor_natCast]

lemma foldl_max_init (l : List Nat) (a : Nat) : a ≤ l.foldl Nat.max a := by
  induction l generalizing a with
  | nil => exact Nat.le_refl a
  | cons b l ih => exact le_trans (Nat.le_max_left a b) (ih (Nat.max a b))

lemma foldl_max_le (l : List Nat) (a : Nat) : ∀ x ∈ l, x ≤ l.foldl Nat.max a := by
  induction l generalizing a with
  | nil => intro x hx; cases hx
  | cons b l ih =>
    intro x hx
    rcases List.mem_cons.mp hx with rfl | hx
    · exact le_trans (Nat.le_max_right a x) (foldl_max_init l (Nat.max a x))
    · exact ih (Nat.max a b) x hx

lemma foldl_max_mem (l : List Nat) (a : Nat) :
    l.foldl Nat.max a = a ∨ l.foldl Nat.max a ∈ l := by
  induction l generalizing a with
  | nil => exact Or.inl rfl
  | cons b l ih =>
    rcases ih (Nat.max a b) with heq | hmem
    · rcases Nat.le_total a b with hab | hba
      · have hm : Nat.max a b = b := Nat.max_eq_right hab
        exact Or.inr (by rw [List.foldl_cons, heq, hm]; simp)
      · have hm : Nat.max a b = a := Nat.max_eq_left hba
        exact Or.inl (by rw [List.foldl_cons, heq, hm])
    · exact Or.inr (List.mem_cons_of_mem b hmem)

set_option maxHeartbeats 4000000 in
lemma updateProgressBar_small : ∀ t < 40, ∀ c < t + 1,
    updateProgressBar t c = (((200 * c + t) / (2 * t) : Nat) : Int) := by decide

/-- Counterexample to claim C9: for a collection of 40 habits with 23
completed, the code's double-precision `Math.round((23/40)*100)`
evaluates to 57 (the product `(23/40)*100` is the double just below
57.5), while round-half-away-from-zero of the exact value 57.5 is 58. -/
theorem percentage_rounding_cex :
    (updateStats (List.replicate 23
        { id := 1, name := "Run", category := "health", completed := true,
          createdAt := "c", completedAt := some "d", streak := 1 } ++
      List.replicate 17
        { id := 2, name := "Row", category := "health", completed := false,
          createdAt := "c", completedAt := none, streak := 0 })).percentage = 57 ∧
    roundHalfAwayFromZero ((23 : ℚ) / (40 : ℚ) * 100) = 58 := by
  constructor
  · decide
  · have h := roundHalfAwayFromZero_div_nat 23 40 (by decide)
    norm_num at h ⊢
    exact h

/-- Claim C9 (amended): `compute` returns `total` = number of habits,
`completedCount` = number completed, `maxStreak` = the maximum streak
(0 for the empty collection), and `percentage` agrees with
round-half-away-from-zero of `completedCount / total * 100` for every
collection of at most 39 habits (and is 0 for the empty collection);
for larger collections the double-precision evaluation can land on the
other side of a .5 boundary (first divergence at 23 of 40, see the
counterexample). -/
theorem updateStats_spec (hs : List Habit) :
    (updateStats hs).total = hs.length ∧
    (updateStats hs).completedCount = hs.countP (fun h => h.completed) ∧
    (∀ h ∈ hs, h.streak ≤ (updateStats hs).maxStreak) ∧
    ((updateStats hs).maxStreak = 0 ∨ ∃ h ∈ hs, (updateStats hs).maxStreak = h.streak) ∧
    (hs = [] → (updateStats hs).percentage = 0) ∧
    (hs.length ≤ 39 →
      (updateStats hs).percentage =
        roundHalfAwayFromZero
          ((hs.countP (fun h => h.completed) : ℚ) / (hs.length : ℚ) * 100)) := by
  have htot : (updateStats hs).total = hs.length := rfl
  have hcomp : (updateStats hs).completedCount =
      (hs.filter (fun h => h.completed)).length := rfl
  have hmax : (updateStats hs).maxStreak =
      if hs.length > 0 then (hs.map (fun h => h.streak)).foldl Nat.max 0 else 0 := rfl
  have hperc : (updateStats hs).percentage =
      updateProgressBar hs.length (hs.filter (fun h => h.completed)).length := rfl
  have hcount : hs.countP (fun h => h.completed) =
      (hs.filter (fun h => h.completed)).length := by
    rw [List.countP_eq_length_filter]
  refine ⟨htot, by rw [hcomp, hcount], ?_, ?_, ?_, ?_⟩
  · intro h hh
    rw [hmax, if_pos (List.length_pos.mpr (List.ne_nil_of_mem hh))]
    exact foldl_max_le _ 0 h.streak (List.mem_map_of_mem _ hh)
  · rw [hmax]
    by_cases hpos : hs.length > 0
    · rw [if_pos hpos]
      rcases foldl_max_mem (hs.map (fun h => h.streak)) 0 with h0 | hmem
      · exact Or.inl h0
      · rcases List.mem_map.mp hmem with ⟨h, hh, heq⟩
        exact Or.inr ⟨h, hh, heq.symm⟩
    · rw [if_neg hpos]
      exact Or.inl rfl
  · intro hnil
    subst hnil
    rw [hperc]
    rfl
  · intro hlen
    rw [hperc, hcount]
    rcases Nat.eq_zero_or_pos hs.length with hz | hpos
    · have hnil : hs = [] := List.length_eq_zero.mp hz
      subst hnil
      simp only [List.filter_nil, List.length_nil, Nat.cast_zero]
      rw [show updateProgressBar 0 0 = 0 from rfl]
      rw [show ((0 : ℚ) / 0 * 100) = 0 by norm_num]
      rw [roundHalfAwayFromZero, if_pos le_rfl]
      rw [show ((0 : ℚ) + 1 / 2) = 1 / 2 by norm_num]
      rw [Nat.floor_eq_zero.mpr (by norm_num)]
      rfl
    · have hc : (hs.filter (fun h => h.completed)).length ≤ hs.length :=
        List.length_filter_le _ _
      rw [updateProgressBar_small hs.length (by omega)
          (hs.filter (fun h => h.completed)).length (by omega)]
      rw [roundHalfAwayFromZero_div_nat _ _ (by omega)]

/-- Witness for the amended C9 at a concrete two-habit collection with
one completed habit: the percentage is the half-away rounding of
(1/2)·100. -/
theorem updateStats_spec_w :
    (updateStats
        [{ id := 1, name := "Run", category := "health", completed := true,
           createdAt := "c", completedAt := some "d", streak := 1 },
         { id := 2, name := "Row", category := "health", completed := false,
           createdAt := "c", completedAt := none, streak := 0 }]).percentage =
      roundHalfAwayFromZero
        ((([{ id := 1, name := "Run", category := "health", completed := true,
              createdAt := "c", completedAt := some "d", streak := 1 },
            { id := 2, name := "Row", category := "health", completed := false,
              createdAt := "c", completedAt := none, streak := 0 }] :
            List Habit).countP (fun h => h.completed) : ℚ) /
          (([{ id := 1, name := "Run", category := "health", completed := true,
               createdAt := "c", completedAt := some "d", streak := 1 },
             { id := 2, name := "Row", category := "health", completed := false,
               createdAt := "c", completedAt := none, streak := 0 }] :
             List Habit).length : ℚ) * 100) :=
  (updateStats_spec _).2.2.2.2.2 (by decide)

/-- The JSON values that `JSON.parse` can produce (script.js:55).
Numbers are modelled as exact rationals (JavaScript rounds decimal
literals to binary64; the values serialized by this application are
integers, for which the two agree).  An object keeps its fields as a
syntactic list in source order. -/
inductive Json where
  | null
  | bool (b : Bool)
  | num (q : ℚ)
  | str (s : String)
  | arr (elems : List Json)
  | obj (fields : List (String × Json))

/-- The four JSON whitespace characters, skipped between tokens. -/
def skipWs : List Char → List Char
  | [] => []
  | c :: rest =>
    if c = ' ' ∨ c = '\t' ∨ c = '\n' ∨ c = '\r' then skipWs rest else c :: rest

def hexVal (c : Char) : Option Nat :=
  if '0' ≤ c ∧ c ≤ '9' then some (c.toNat - 48)
  else if 'a' ≤ c ∧ c ≤ 'f' then some (c.toNat - 87)
  else if 'A' ≤ c ∧ c ≤ 'F' then some (c.toNat - 55)
  else none

def consR (c : Char) : Option (List Char × List Char) → Option (List Char × List Char)
  | none => none
  | some (cs, r) => some (c :: cs, r)

/-- Decode one escape sequence (the characters after a backslash):
the named escapes, `\\uXXXX` with surrogate pairs combined.  A lone
surrogate escape (which JavaScript would accept, producing an
ill-formed string that Lean's `Char` cannot hold) is rejected. -/
def unescape (rest : List Char) : Option (Char × List Char) :=
  match rest with
  | [] => none
  | e :: rest2 =>
    if e = '"' then some ('"', rest2)
    else if e = '\\' then some ('\\', rest2)
    else if e = '/' then some ('/', rest2)
    else if e = 'b' then some ('\x08', rest2)
    else if e = 'f' then some ('\x0c', rest2)
    else if e = 'n' then some ('\n', rest2)
    else if e = 'r' then some ('\r', rest2)
    else if e = 't' then some ('\t', rest2)
    else if e = 'u' then
      match rest2 with
      | a :: b :: c2 :: d :: rest3 =>
        match hexVal a, hexVal b, hexVal c2, hexVal d with
        | some ha, some hb, some hc, some hd =>
          let code := 4096 * ha + 256 * hb + 16 * hc + hd
          if 55296 ≤ code ∧ code < 56320 then
            match rest3 with
            | '\\' :: 'u' :: a2 :: b2 :: c3 :: d2 :: rest4 =>
              match hexVal a2, hexVal b2, hexVal c3, hexVal d2 with
              | some he, some hf, some hg, some hh =>
                let lo := 4096 * he + 256 * hf + 16 * hg + hh
                if 56320 ≤ lo ∧ lo < 57344 then
                  some (Char.ofNat (65536 + (code - 55296) * 1024 + (lo - 56320)), rest4)
                else none
              | _, _, _, _ => none
            | _ => none
          else if 56320 ≤ code ∧ code < 57344 then none
          else some (Char.ofNat code, rest3)
        | _, _, _, _ => none
      | _ => none
    else none

/-- The body of a JSON string literal, after the opening quote: plain
characters up to the closing quote, escapes decoded by `unescape`,
unescaped control characters rejected.  The fuel (one unit per decoded
character; callers pass the input length plus one) only makes the
recursion structural. -/
def parseStrBody : Nat → List Char → Option (List Char × List Char)
  | 0, _ => none
  | fuel + 1, s =>
    match s with
    | [] => none
    | c :: rest =>
      if c = '"' then some ([], rest)
      else if c = '\\' then
        match unescape rest with
        | some (ch, rest2) => consR ch (parseStrBody fuel rest2)
        | none => none
      else if c.toNat < 32 then none
      else consR c (parseStrBody fuel rest)

/-- The numeric value of a string of decimal digit characters. -/
def digitsVal (ds : List Char) : Nat :=
  ds.foldl (fun a c => 10 * a + (c.toNat - 48)) 0

def parseExpDigits (m : ℚ) (neg : Bool) (s : List Char) : Option (ℚ × List Char) :=
  let eds := s.takeWhile Char.isDigit
  let s2 := s.dropWhile Char.isDigit
  if eds = [] then none
  else some ((if neg then m / (10 : ℚ) ^ digitsVal eds else m * (10 : ℚ) ^ digitsVal eds), s2)

def parseExp (m : ℚ) (s : List Char) : Option (ℚ × List Char) :=
  match s with
  | [] => some (m, [])
  | c :: s1 =>
    if c = 'e' ∨ c = 'E' then
      match s1 with
      | [] => none
      | d :: s2 =>
        if d = '+' then parseExpDigits m false s2
        else if d = '-' then parseExpDigits m true s2
        else parseExpDigits m false (d :: s2)
    else some (m, c :: s1)

def parseFracExp (ip : ℚ) (s : List Char) : Option (ℚ × List Char) :=
  match s with
  | [] => some (ip, [])
  | c :: s3 =>
    if c = '.' then
      let fds := s3.takeWhile Char.isDigit
      let s4 := s3.dropWhile Char.isDigit
      if fds = [] then none
      else parseExp (ip + (digitsVal fds : ℚ) / (10 : ℚ) ^ fds.length) s4
    else parseExp ip (c :: s3)

def parseNumMag (s : List Char) : Option (ℚ × List Char) :=
  let ids := s.takeWhile Char.isDigit
  let s2 := s.dropWhile Char.isDigit
  if ids = [] then none
  else if 1 < ids.length ∧ ids.head? = some '0' then none
  else parseFracExp (digitsVal ids : ℚ) s2

/-- A JSON number: optional minus sign, integer part without leading
zeros, optional fraction, optional exponent, with the exact rational
value. -/
def parseNumber (s : List Char) : Option (ℚ × List Char) :=
  match s with
  | [] => none
  | c :: s1 =>
    if c = '-' then
      match parseNumMag s1 with
      | some (q, r) => some (-q, r)
      | none => none
    else parseNumMag (c :: s1)

/-- Comma-separated JSON values up to the closing bracket, each parsed
by `p`; the fuel bounds the number of elements. -/
def parseItems (p : List Char → Option (Json × List Char)) :
    Nat → List Char → Option (List Json × List Char)
  | 0, _ => none
  | fuel + 1, s =>
    match p s with
    | some (v, r) =>
      (match skipWs r with
       | ',' :: r2 =>
         (match parseItems p fuel r2 with
          | some (vs, r3) => some (v :: vs, r3)
          | none => none)
       | ']' :: r2 => some ([v], r2)
       | _ => none)
    | none => none

/-- Comma-separated `"key": value` pairs up to the closing brace. -/
def parseFields (p : List Char → Option (Json × List Char)) :
    Nat → List Char → Option (List (String × Json) × List Char)
  | 0, _ => none
  | fuel + 1, s =>
    match skipWs s with
    | '"' :: rest =>
      (match parseStrBody (rest.length + 1) rest with
       | some (k, r) =>
         (match skipWs r with
          | ':' :: r2 =>
            (match p r2 with
             | some (v, r3) =>
               (match skipWs r3 with
                | ',' :: r4 =>
                  (match parseFields p fuel r4 with
                   | some (fs, r5) => some ((String.mk k, v) :: fs, r5)
                   | none => none)
                | '\x7d' :: r4 => some ([(String.mk k, v)], r4)
                | _ => none)
             | none => none)
          | _ => none)
       | none => none)
    | _ => none

/-- A single JSON value: the recursive-descent grammar of `JSON.parse`,
with a fuel bound on nesting and element counts (the caller passes
ample fuel for the input length). -/
def parseValue : Nat → List Char → Option (Json × List Char)
  | 0, _ => none
  | fuel + 1, s =>
    match skipWs s with
    | [] => none
    | c :: rest =>
      if c = '"' then
        match parseStrBody (rest.length + 1) rest with
        | some (cs, r) => some (.str (String.mk cs), r)
        | none => none
      else if c = '\x7b' then
        match skipWs rest with
        | [] => none
        | d :: rest2 =>
          if d = '\x7d' then some (.obj [], rest2)
          else
            match parseFields (parseValue fuel) fuel rest with
            | some (fs, r) => some (.obj fs, r)
            | none => none
      else if c = '[' then
        match skipWs rest with
        | [] => none
        | d :: rest2 =>
          if d = ']' then some (.arr [], rest2)
          else
            match parseItems (parseValue fuel) fuel rest with
            | some (vs, r) => some (.arr vs, r)
            | none => none
      else if c = 't' then
        match rest with
        | 'r' :: 'u' :: 'e' :: r => some (.bool true, r)
        | _ => none
      else if c = 'f' then
        match rest with
        | 'a' :: 'l' :: 's' :: 'e' :: r => some (.bool false, r)
        | _ => none
      else if c = 'n' then
        match rest with
        | 'u' :: 'l' :: 'l' :: r => some (.null, r)
        | _ => none
      else
        match parseNumber (c :: rest) with
        | some (q, r) => some (.num q, r)
        | none => none

/-- `JSON.parse` (script.js:55): parse one value, allow surrounding
whitespace, reject trailing garbage; `none` models the thrown
SyntaxError. -/
def jsonParse (s : String) : Option Json :=
  match parseValue (s.data.length + 12) s.data with
  | some (v, rest) => if skipWs rest = [] then some v else none
  | none => none

/-- Lowercase hexadecimal digit, as emitted by `JSON.stringify` in
`\u00XX` escapes. -/
def hexDigit (n : Nat) : Char :=
  if n < 10 then Char.ofNat (48 + n) else Char.ofNat (87 + n)

/-- The escaping `JSON.stringify` applies to one string character:
quote and backslash are escaped, the five named control escapes are
used where they exist, any other control character becomes `\u00XX`,
and everything else is emitted literally. -/
def escChar (c : Char) : List Char :=
  if c = '"' then ['\\', '"']
  else if c = '\\' then ['\\', '\\']
  else if c = '\x08' then ['\\', 'b']
  else if c = '\t' then ['\\', 't']
  else if c = '\n' then ['\\', 'n']
  else if c = '\x0c' then ['\\', 'f']
  else if c = '\r' then ['\\', 'r']
  else if c.toNat < 32 then
    ['\\', 'u', '0', '0', hexDigit (c.toNat / 16), hexDigit (c.toNat % 16)]
  else [c]

def escBody : List Char → List Char
  | [] => []
  | c :: cs => escChar c ++ escBody cs

/-- A JSON string literal for `s`: quote, escaped body, quote. -/
def renderString (s : String) : List Char :=
  '"' :: (escBody s.data ++ ['"'])

/-- Decimal digits of a natural number, most significant first. -/
def natDigsAux : Nat → List Char → List Char
  | 0, acc => acc
  | n + 1, acc =>
    natDigsAux ((n + 1) / 10) (Char.ofNat (48 + (n + 1) % 10) :: acc)
termination_by n _ => n
decreasing_by simp_wf; omega

def renderNat (n : Nat) : List Char :=
  if n = 0 then ['0'] else natDigsAux n []

def renderBool : Bool → List Char
  | true => ['t', 'r', 'u', 'e']
  | false => ['f', 'a', 'l', 's', 'e']

def renderOptStr : Option String → List Char
  | none => ['n', 'u', 'l', 'l']
  | some s => renderString s

def renderField (k : String) (v : List Char) : List Char :=
  renderString k ++ ':' :: v

/-- `JSON.stringify` of one habit object: the seven fields in literal
order, no whitespace. -/
def renderHabit (h : Habit) : List Char :=
  '\x7b' ::
    (renderField "id" (renderNat h.id) ++ ',' ::
     (renderField "name" (renderString h.name) ++ ',' ::
      (renderField "category" (renderString h.category) ++ ',' ::
       (renderField "completed" (renderBool h.completed) ++ ',' ::
        (renderField "createdAt" (renderString h.createdAt) ++ ',' ::
         (renderField "completedAt" (renderOptStr h.completedAt) ++ ',' ::
          (renderField "streak" (renderNat h.streak) ++ ['\x7d'])))))))

/-- The comma-separated habit objects of a nonempty array body,
including the closing bracket. -/
def renderItems : List Habit → List Char
  | [] => [']']
  | [h] => renderHabit h ++ [']']
  | h :: rest => renderHabit h ++ ',' :: renderItems rest

def renderTop (habits : List Habit) : List Char :=
  match habits with
  | [] => ['[', ']']
  | _ => '[' :: renderItems habits

/-- `saveHabitsToStorage` (script.js:63-70): the string
`JSON.stringify(habits)` written under the reserved key.  (The JS
`try/catch` around the quota-exceeded write failure does not change the
produced string.) -/
def saveHabitsToStorage (habits : List Habit) : String :=
  String.mk (renderTop habits)

/-- The JSON image of one habit record, as `JSON.parse` reproduces it
from the serialized form. -/
def habitToJson (h : Habit) : Json :=
  Json.obj [("id", .num (h.id : ℚ)), ("name", .str h.name),
            ("category", .str h.category), ("completed", .bool h.completed),
            ("createdAt", .str h.createdAt),
            ("completedAt", match h.completedAt with | none => .null | some s => .str s),
            ("streak", .num (h.streak : ℚ))]

def habitsToJson (habits : List Habit) : Json :=
  Json.arr (habits.map habitToJson)

/-- Structural read-back of a habit record from its JSON image; this is
the abstraction function used to state that a loaded value is
structurally equal to a typed collection (the JS code itself keeps the
parsed objects untyped). -/
def jsonToNat (q : ℚ) : Option Nat :=
  if q.den = 1 ∧ 0 ≤ q.num then some q.num.toNat else none

def jsonToOptStr : Json → Option (Option String)
  | .null => some none
  | .str s => some (some s)
  | _ => none

def jsonToHabit : Json → Option Habit
  | .obj [("id", .num qid), ("name", .str n), ("category", .str c),
          ("completed", .bool b), ("createdAt", .str ca),
          ("completedAt", compAt), ("streak", .num qs)] =>
    (match jsonToNat qid, jsonToNat qs, jsonToOptStr compAt with
     | some i, some s, some oc =>
       some { id := i, name := n, category := c, completed := b,
              createdAt := ca, completedAt := oc, streak := s }
     | _, _, _ => none)
  | _ => none

def jsonToHabitsList : List Json → Option (List Habit)
  | [] => some []
  | v :: vs =>
    match jsonToHabit v, jsonToHabitsList vs with
    | some h, some hs => some (h :: hs)
    | _, _ => none

def jsonToHabits : Json → Option (List Habit)
  | .arr vs => jsonToHabitsList vs
  | _ => none

/-- `loadHabitsFromStorage` (script.js:51-61): a missing key (or the
falsy empty string) leaves the initial empty array; otherwise the
stored blob is `JSON.parse`d with no schema validation, and the
`catch` turns any parse failure into the empty array. -/
def loadHabitsFromStorage : Option String → Json
  | none => Json.arr []
  | some s =>
    if s = "" then Json.arr []
    else
      match jsonParse s with
      | some v => v
      | none => Json.arr []

lemma takeWhile_append_all {p : Char → Bool} (xs r : List Char)
    (hxs : ∀ c ∈ xs, p c = true) (hr : ∀ c, r.head? = some c → p c = false) :
    (xs ++ r).takeWhile p = xs ∧ (xs ++ r).dropWhile p = r := by
  induction xs with
  | nil =>
    cases r with
    | nil => exact ⟨rfl, rfl⟩
    | cons c r' =>
      have hc : p c = false := hr c rfl
      simp [List.takeWhile, List.dropWhile, hc]
  | cons x xs ih =>
    have hx : p x = true := hxs x (by simp)
    have ih' := ih (fun c hc => hxs c (by simp [hc]))
    simp [List.takeWhile, List.dropWhile, hx, ih'.1, ih'.2]

lemma toNat_char_digit (m : Nat) (hm : m < 10) :
    (Char.ofNat (48 + m)).toNat = 48 + m := by
  interval_cases m <;> decide

lemma isDigit_char_digit (m : Nat) (hm : m < 10) :
    (Char.ofNat (48 + m)).isDigit = true := by
  interval_cases m <;> decide

lemma natDigsAux_append (n : Nat) : ∀ acc, natDigsAux n acc = natDigsAux n [] ++ acc := by
  induction n using Nat.strong_induction_on with
  | _ n ih =>
    intro acc
    match n with
    | 0 => simp [natDigsAux]
    | m + 1 =>
      rw [natDigsAux, natDigsAux]
      rw [ih ((m + 1) / 10) (Nat.div_lt_self (Nat.succ_pos m) (by omega))
          (Char.ofNat (48 + (m + 1) % 10) :: acc)]
      rw [ih ((m + 1) / 10) (Nat.div_lt_self (Nat.succ_pos m) (by omega))
          [Char.ofNat (48 + (m + 1) % 10)]]
      simp

lemma digitsVal_append_singleton (xs : List Char) (c : Char) :
    digitsVal (xs ++ [c]) = 10 * digitsVal xs + (c.toNat - 48) := by
  simp [digitsVal, List.foldl_append]

lemma digitsVal_natDigs (n : Nat) : digitsVal (natDigsAux n []) = n := by
  induction n using Nat.strong_induction_on with
  | _ n ih =>
    match n with
    | 0 => rw [natDigsAux]; rfl
    | m + 1 =>
      rw [natDigsAux, natDigsAux_append]
      rw [digitsVal_append_singleton]
      rw [ih ((m + 1) / 10) (Nat.div_lt_self (Nat.succ_pos m) (by omega))]
      rw [toNat_char_digit ((m + 1) % 10) (Nat.mod_lt _ (by omega))]
      omega

lemma natDigs_all_digits (n : Nat) : ∀ c ∈ natDigsAux n [], c.isDigit = true := by
  induction n using Nat.strong_induction_on with
  | _ n ih =>
    match n with
    | 0 => intro c hc; rw [natDigsAux] at hc; cases hc
    | m + 1 =>
      intro c hc
      rw [natDigsAux, natDigsAux_append] at hc
      rcases List.mem_append.mp hc with hc | hc
      · exact ih ((m + 1) / 10) (Nat.div_lt_self (Nat.succ_pos m) (by omega)) c hc
      · simp only [List.mem_singleton] at hc
        subst hc
        exact isDigit_char_digit ((m + 1) % 10) (Nat.mod_lt _ (by omega))

lemma natDigs_ne_nil (n : Nat) (hn : n ≠ 0) : natDigsAux n [] ≠ [] := by
  intro h
  have := digitsVal_natDigs n
  rw [h] at this
  exact hn this.symm

lemma natDigs_head_ne_zero (n : Nat) (hn : n ≠ 0) :
    ∀ c, (natDigsAux n []).head? = some c → c ≠ '0' := by
  induction n using Nat.strong_induction_on with
  | _ n ih =>
    match n, hn with
    | m + 1, _ =>
      intro c hc
      rw [natDigsAux, natDigsAux_append] at hc
      rcases Nat.eq_zero_or_pos ((m + 1) / 10) with hq | hq
      · rw [hq] at hc
        simp only [natDigsAux, List.nil_append, List.head?_cons] at hc
        have hr : (m + 1) % 10 = m + 1 := by omega
        have hlt : (m + 1) % 10 < 10 := Nat.mod_lt _ (by omega)
        obtain rfl : Char.ofNat (48 + (m + 1) % 10) = c := Option.some.inj hc
        intro hc0
        have htn := toNat_char_digit ((m + 1) % 10) hlt
        rw [hc0] at htn
        simp only [show ('0').toNat = 48 from rfl] at htn
        omega
      · rcases List.exists_cons_of_ne_nil (natDigs_ne_nil ((m + 1) / 10) (by omega)) with
          ⟨d, ds, hds⟩
        rw [hds] at hc
        simp only [List.cons_append, List.head?_cons] at hc
        have hd := ih ((m + 1) / 10) (Nat.div_lt_self (Nat.succ_pos m) (by omega)) (by omega) d
          (by rw [hds]; rfl)
        obtain rfl : d = c := Option.some.inj hc
        exact hd

lemma renderNat_all_digits (n : Nat) : ∀ c ∈ renderNat n, c.isDigit = true := by
  unfold renderNat
  split_ifs with h
  · intro c hc
    simp only [List.mem_singleton] at hc
    subst hc
    decide
  · exact natDigs_all_digits n

lemma renderNat_ne_nil (n : Nat) : renderNat n ≠ [] := by
  unfold renderNat
  split_ifs with h
  · simp
  · exact natDigs_ne_nil n h

lemma digitsVal_renderNat (n : Nat) : digitsVal (renderNat n) = n := by
  unfold renderNat
  split_ifs with h
  · subst h; rfl
  · exact digitsVal_natDigs n

lemma renderNat_no_leading_zero (n : Nat) :
    ¬ (1 < (renderNat n).length ∧ (renderNat n).head? = some '0') := by
  unfold renderNat
  split_ifs with h
  · simp
  · rintro ⟨hlen, hhead⟩
    exact natDigs_head_ne_zero n h '0' hhead rfl

lemma parseExp_not_exp (m : ℚ) (c : Char) (s : List Char)
    (hc : ¬ (c = 'e' ∨ c = 'E')) : parseExp m (c :: s) = some (m, c :: s) := by
  show (if c = 'e' ∨ c = 'E' then _ else some (m, c :: s)) = some (m, c :: s)
  rw [if_neg hc]

/-- Characters that stop a JSON number: not a digit, not a decimal
point, not an exponent marker. -/
def NumStop (r : List Char) : Prop :=
  ∀ c, r.head? = some c → (c.isDigit = false ∧ c ≠ '.' ∧ c ≠ 'e' ∧ c ≠ 'E')

lemma parseNumMag_renderNat (n : Nat) (r : List Char) (hr : NumStop r) :
    parseNumMag (renderNat n ++ r) = some ((n : ℚ), r) := by
  have hsplit := takeWhile_append_all (renderNat n) r (renderNat_all_digits n)
    (fun c hc => (hr c hc).1)
  unfold parseNumMag
  rw [hsplit.1, hsplit.2]
  rw [if_neg (renderNat_ne_nil n), if_neg (renderNat_no_leading_zero n)]
  rw [digitsVal_renderNat]
  cases r with
  | nil => rfl
  | cons c r1 =>
    have hc := hr c rfl
    rw [parseFracExp, if_neg hc.2.1]
    exact parseExp_not_exp _ c r1 (by simp [hc.2.2.1, hc.2.2.2])

lemma parseNumber_renderNat (n : Nat) (r : List Char) (hr : NumStop r) :
    parseNumber (renderNat n ++ r) = some ((n : ℚ), r) := by
  rcases List.exists_cons_of_ne_nil (renderNat_ne_nil n) with ⟨d, ds, hds⟩
  have hd : d.isDigit = true := renderNat_all_digits n d (by rw [hds]; simp)
  have hdm : d ≠ '-' := by
    intro hdm
    rw [hdm] at hd
    exact absurd hd (by decide)
  rw [hds]
  unfold parseNumber
  simp only [List.cons_append]
  rw [if_neg hdm]
  rw [show d :: (ds ++ r) = (d :: ds) ++ r from rfl, ← hds]
  exact parseNumMag_renderNat n r hr


lemma hexVal_hexDigit (m : Nat) (hm : m < 16) : hexVal (hexDigit m) = some m := by
  interval_cases m <;> decide

lemma escBody_parse (cs : List Char) : ∀ (f : Nat) (r : List Char),
    cs.length + 1 ≤ f → parseStrBody f (escBody cs ++ '"' :: r) = some (cs, r) := by
  induction cs with
  | nil =>
    intro f r hf
    obtain ⟨k, rfl⟩ : ∃ k, f = k + 1 := ⟨f - 1, by omega⟩
    simp only [escBody, List.nil_append]
    rw [parseStrBody]
    rfl
  | cons c cs ih =>
    intro f r hf
    obtain ⟨k, rfl⟩ : ∃ k, f = k + 1 := ⟨f - 1, by omega⟩
    have hk : cs.length + 1 ≤ k := by
      simp only [List.length_cons] at hf
      omega
    rw [escBody, escChar]
    split_ifs with h1 h2 h3 h4 h5 h6 h7 h8
    · subst h1
      simp only [List.cons_append, List.nil_append]
      rw [parseStrBody]
      simp [unescape, consR, ih k r hk]
    · subst h2
      simp only [List.cons_append, List.nil_append]
      rw [parseStrBody]
      simp [unescape, consR, ih k r hk]
    · subst h3
      simp only [List.cons_append, List.nil_append]
      rw [parseStrBody]
      simp [unescape, consR, ih k r hk]
    · subst h4
      simp only [List.cons_append, List.nil_append]
      rw [parseStrBody]
      simp [unescape, consR, ih k r hk]
    · subst h5
      simp only [List.cons_append, List.nil_append]
      rw [parseStrBody]
      simp [unescape, consR, ih k r hk]
    · subst h6
      simp only [List.cons_append, List.nil_append]
      rw [parseStrBody]
      simp [unescape, consR, ih k r hk]
    · subst h7
      simp only [List.cons_append, List.nil_append]
      rw [parseStrBody]
      simp [unescape, consR, ih k r hk]
    · -- other control characters, escaped as \u00XX
      have hhi : c.toNat / 16 < 16 := by omega
      have hlo : c.toNat % 16 < 16 := by omega
      have hns1 : ¬ (55296 ≤ 16 * (c.toNat / 16) + c.toNat % 16 ∧
          16 * (c.toNat / 16) + c.toNat % 16 < 56320) := by omega
      have hns2 : ¬ (56320 ≤ 16 * (c.toNat / 16) + c.toNat % 16 ∧
          16 * (c.toNat / 16) + c.toNat % 16 < 57344) := by omega
      have hchar : Char.ofNat (16 * (c.toNat / 16) + c.toNat % 16) = c := by
        rw [show 16 * (c.toNat / 16) + c.toNat % 16 = c.toNat by omega, Char.ofNat_toNat]
      simp only [List.cons_append, List.nil_append]
      rw [parseStrBody]
      simp [unescape, consR, hexVal_hexDigit _ hhi, hexVal_hexDigit _ hlo,
        show hexVal '0' = some 0 from rfl, hns1, hns2, hchar, ih k r hk]
    · -- ordinary characters
      simp only [List.singleton_append, List.cons_append, List.nil_append]
      rw [parseStrBody]
      rw [if_neg h1, if_neg h2, if_neg (by omega : ¬ c.toNat < 32)]
      rw [ih k r hk]
      rfl

lemma skipWs_not_ws (c : Char) (r : List Char)
    (hc : ¬ (c = ' ' ∨ c = '\t' ∨ c = '\n' ∨ c = '\r')) : skipWs (c :: r) = c :: r := by
  rw [skipWs, if_neg hc]

lemma stringMk_data (s : String) : String.mk s.data = s := rfl

lemma escChar_length_pos (c : Char) : 1 ≤ (escChar c).length := by
  unfold escChar
  split_ifs <;> simp

lemma escBody_length (cs : List Char) : cs.length ≤ (escBody cs).length := by
  induction cs with
  | nil => simp [escBody]
  | cons c cs ih =>
    rw [escBody]
    rw [List.length_append]
    have := escChar_length_pos c
    simp only [List.length_cons]
    omega

lemma parseValue_renderString (f : Nat) (s : String) (r : List Char) :
    parseValue (f + 1) (renderString s ++ r) = some (.str s, r) := by
  have hshape : renderString s ++ r = '"' :: (escBody s.data ++ '"' :: r) := by
    simp [renderString]
  rw [hshape, parseValue, skipWs_not_ws '"' _ (by decide)]
  have hfuel : s.data.length + 1 ≤ (escBody s.data ++ '"' :: r).length + 1 := by
    rw [List.length_append]
    have := escBody_length s.data
    simp only [List.length_cons]
    omega
  simp only [reduceIte]
  rw [escBody_parse s.data _ r hfuel]

lemma parseValue_renderNat (f : Nat) (n : Nat) (r : List Char) (hr : NumStop r) :
    parseValue (f + 1) (renderNat n ++ r) = some (.num (n : ℚ), r) := by
  rcases List.exists_cons_of_ne_nil (renderNat_ne_nil n) with ⟨d, ds, hds⟩
  have hd : d.isDigit = true := renderNat_all_digits n d (by rw [hds]; simp)
  have hno : ∀ x : Char, x.isDigit = false → d ≠ x := by
    intro x hx hdx
    rw [hdx, hx] at hd
    cases hd
  have hws : ¬ (d = ' ' ∨ d = '\t' ∨ d = '\n' ∨ d = '\r') := by
    rintro (h | h | h | h) <;> exact hno _ (by decide) h
  have hpn : parseNumber (d :: (ds ++ r)) = some ((n : ℚ), r) := by
    rw [show d :: (ds ++ r) = renderNat n ++ r by rw [hds, List.cons_append]]
    exact parseNumber_renderNat n r hr
  rw [hds, List.cons_append, parseValue, skipWs_not_ws d _ hws]
  simp [hno '"' (by decide), hno '\x7b' (by decide), hno '[' (by decide),
    hno 't' (by decide), hno 'f' (by decide), hno 'n' (by decide), hpn]

lemma parseValue_renderBool (f : Nat) (b : Bool) (r : List Char) :
    parseValue (f + 1) (renderBool b ++ r) = some (.bool b, r) := by
  cases b with
  | true =>
    rw [show renderBool true ++ r = 't' :: 'r' :: 'u' :: 'e' :: r from rfl]
    rw [parseValue, skipWs_not_ws 't' _ (by decide)]
    simp
  | false =>
    rw [show renderBool false ++ r = 'f' :: 'a' :: 'l' :: 's' :: 'e' :: r from rfl]
    rw [parseValue, skipWs_not_ws 'f' _ (by decide)]
    simp

lemma parseValue_null (f : Nat) (r : List Char) :
    parseValue (f + 1) (['n', 'u', 'l', 'l'] ++ r) = some (.null, r) := by
  rw [show ['n', 'u', 'l', 'l'] ++ r = 'n' :: 'u' :: 'l' :: 'l' :: r from rfl]
  rw [parseValue, skipWs_not_ws 'n' _ (by decide)]
  simp

lemma parseValue_renderOptStr (f : Nat) (o : Option String) (r : List Char) :
    parseValue (f + 1) (renderOptStr o ++ r) =
      some ((match o with | none => Json.null | some s => Json.str s), r) := by
  cases o with
  | none => exact parseValue_null f r
  | some s => exact parseValue_renderString f s r

lemma renderField_shape (k : String) (v tail : List Char) :
    renderField k v ++ tail = '"' :: (escBody k.data ++ '"' :: (':' :: (v ++ tail))) := by
  simp [renderField, renderString]

lemma parseFields_step_comma (p : List Char → Option (Json × List Char)) (F : Nat)
    (key : String) (v : List Char) (vj : Json) (tail : List Char)
    (fsout : List (String × Json)) (rout : List Char)
    (hv : p (v ++ ',' :: tail) = some (vj, ',' :: tail))
    (hrec : parseFields p F tail = some (fsout, rout)) :
    parseFields p (F + 1) (renderField key v ++ ',' :: tail) =
      some ((key, vj) :: fsout, rout) := by
  rw [renderField_shape, parseFields, skipWs_not_ws '"' _ (by decide)]
  have hfuel : key.data.length + 1 ≤ (escBody key.data ++ '"' :: (':' :: (v ++ ',' :: tail))).length + 1 := by
    rw [List.length_append]
    have := escBody_length key.data
    simp only [List.length_cons]
    omega
  simp only [escBody_parse key.data _ _ hfuel]
  rw [skipWs_not_ws ':' _ (by decide)]
  simp only [hv]
  rw [skipWs_not_ws ',' _ (by decide)]
  simp only [hrec, stringMk_data]

lemma parseFields_step_last (p : List Char → Option (Json × List Char)) (F : Nat)
    (key : String) (v : List Char) (vj : Json) (tail : List Char)
    (hv : p (v ++ '\x7d' :: tail) = some (vj, '\x7d' :: tail)) :
    parseFields p (F + 1) (renderField key v ++ '\x7d' :: tail) =
      some ([(key, vj)], tail) := by
  rw [renderField_shape, parseFields, skipWs_not_ws '"' _ (by decide)]
  have hfuel : key.data.length + 1 ≤ (escBody key.data ++ '"' :: (':' :: (v ++ '\x7d' :: tail))).length + 1 := by
    rw [List.length_append]
    have := escBody_length key.data
    simp only [List.length_cons]
    omega
  simp only [escBody_parse key.data _ _ hfuel]
  rw [skipWs_not_ws ':' _ (by decide)]
  simp only [hv]
  rw [skipWs_not_ws '\x7d' _ (by decide)]
  simp only [stringMk_data]

lemma numStop_cons (c : Char) (t : List Char)
    (h : c.isDigit = false ∧ c ≠ '.' ∧ c ≠ 'e' ∧ c ≠ 'E') : NumStop (c :: t) := by
  intro x hx
  obtain rfl : c = x := Option.some.inj hx
  exact h

lemma parseValue_renderHabit (k : Nat) (h : Habit) (r : List Char) :
    parseValue (k + 9) (renderHabit h ++ r) = some (habitToJson h, r) := by
  have hv7 : parseValue (k + 8) ((renderNat h.streak) ++ '\x7d' :: r) =
      some (Json.num (h.streak : ℚ), '\x7d' :: r) :=
    parseValue_renderNat (k + 7) h.streak ('\x7d' :: r) (numStop_cons '\x7d' _ (by decide))
  have hv6 : parseValue (k + 8) ((renderOptStr h.completedAt) ++ ',' :: (renderField "streak" (renderNat h.streak) ++ '\x7d' :: r)) =
      some ((match h.completedAt with | none => Json.null | some s => Json.str s), ',' :: (renderField "streak" (renderNat h.streak) ++ '\x7d' :: r)) :=
    parseValue_renderOptStr (k + 7) h.completedAt (',' :: (renderField "streak" (renderNat h.streak) ++ '\x7d' :: r))
  have hv5 : parseValue (k + 8) ((renderString h.createdAt) ++ ',' :: (renderField "completedAt" (renderOptStr h.completedAt) ++ ',' :: (renderField "streak" (renderNat h.streak) ++ '\x7d' :: r))) =
      some (Json.str h.createdAt, ',' :: (renderField "completedAt" (renderOptStr h.completedAt) ++ ',' :: (renderField "streak" (renderNat h.streak) ++ '\x7d' :: r))) :=
    parseValue_renderString (k + 7) h.createdAt (',' :: (renderField "completedAt" (renderOptStr h.completedAt) ++ ',' :: (renderField "streak" (renderNat h.streak) ++ '\x7d' :: r)))
  have hv4 : parseValue (k + 8) ((renderBool h.completed) ++ ',' :: (renderField "createdAt" (renderString h.createdAt) ++ ',' :: (renderField "completedAt" (renderOptStr h.completedAt) ++ ',' :: (renderField "streak" (renderNat h.streak) ++ '\x7d' :: r)))) =
      some (Json.bool h.completed, ',' :: (renderField "createdAt" (renderString h.createdAt) ++ ',' :: (renderField "completedAt" (renderOptStr h.completedAt) ++ ',' :: (renderField "streak" (renderNat h.streak) ++ '\x7d' :: r)))) :=
    parseValue_renderBool (k + 7) h.completed (',' :: (renderField "createdAt" (renderString h.createdAt) ++ ',' :: (renderField "completedAt" (renderOptStr h.completedAt) ++ ',' :: (renderField "streak" (renderNat h.streak) ++ '\x7d' :: r))))
  have hv3 : parseValue (k + 8) ((renderString h.category) ++ ',' :: (renderField "completed" (renderBool h.completed) ++ ',' :: (renderField "createdAt" (renderString h.createdAt) ++ ',' :: (renderField "completedAt" (renderOptStr h.completedAt) ++ ',' :: (renderField "streak" (renderNat h.streak) ++ '\x7d' :: r))))) =
      some (Json.str h.category, ',' :: (renderField "completed" (renderBool h.completed) ++ ',' :: (renderField "createdAt" (renderString h.createdAt) ++ ',' :: (renderField "completedAt" (renderOptStr h.completedAt) ++ ',' :: (renderField "streak" (renderNat h.streak) ++ '\x7d' :: r))))) :=
    parseValue_renderString (k + 7) h.category (',' :: (renderField "completed" (renderBool h.completed) ++ ',' :: (renderField "createdAt" (renderString h.createdAt) ++ ',' :: (renderField "completedAt" (renderOptStr h.completedAt) ++ ',' :: (renderField "streak" (renderNat h.streak) ++ '\x7d' :: r)))))
  have hv2 : parseValue (k + 8) ((renderString h.name) ++ ',' :: (renderField "category" (renderString h.category) ++ ',' :: (renderField "completed" (renderBool h.completed) ++ ',' :: (renderField "createdAt" (renderString h.createdAt) ++ ',' :: (renderField "completedAt" (renderOptStr h.completedAt) ++ ',' :: (renderField "streak" (renderNat h.streak) ++ '\x7d' :: r)))))) =
      some (Json.str h.name, ',' :: (renderField "category" (renderString h.category) ++ ',' :: (renderField "completed" (renderBool h.completed) ++ ',' :: (renderField "createdAt" (renderString h.createdAt) ++ ',' :: (renderField "completedAt" (renderOptStr h.completedAt) ++ ',' :: (renderField "streak" (renderNat h.streak) ++ '\x7d' :: r)))))) :=
    parseValue_renderString (k + 7) h.name (',' :: (renderField "category" (renderString h.category) ++ ',' :: (renderField "completed" (renderBool h.completed) ++ ',' :: (renderField "createdAt" (renderString h.createdAt) ++ ',' :: (renderField "completedAt" (renderOptStr h.completedAt) ++ ',' :: (renderField "streak" (renderNat h.streak) ++ '\x7d' :: r))))))
  have hv1 : parseValue (k + 8) ((renderNat h.id) ++ ',' :: (renderField "name" (renderString h.name) ++ ',' :: (renderField "category" (renderString h.category) ++ ',' :: (renderField "completed" (renderBool h.completed) ++ ',' :: (renderField "createdAt" (renderString h.createdAt) ++ ',' :: (renderField "completedAt" (renderOptStr h.completedAt) ++ ',' :: (renderField "streak" (renderNat h.streak) ++ '\x7d' :: r))))))) =
      some (Json.num (h.id : ℚ), ',' :: (renderField "name" (renderString h.name) ++ ',' :: (renderField "category" (renderString h.category) ++ ',' :: (renderField "completed" (renderBool h.completed) ++ ',' :: (renderField "createdAt" (renderString h.createdAt) ++ ',' :: (renderField "completedAt" (renderOptStr h.completedAt) ++ ',' :: (renderField "streak" (renderNat h.streak) ++ '\x7d' :: r))))))) :=
    parseValue_renderNat (k + 7) h.id (',' :: (renderField "name" (renderString h.name) ++ ',' :: (renderField "category" (renderString h.category) ++ ',' :: (renderField "completed" (renderBool h.completed) ++ ',' :: (renderField "createdAt" (renderString h.createdAt) ++ ',' :: (renderField "completedAt" (renderOptStr h.completedAt) ++ ',' :: (renderField "streak" (renderNat h.streak) ++ '\x7d' :: r))))))) (numStop_cons ',' _ (by decide))
  have hf7 : parseFields (parseValue (k + 8)) (k + 2)
      (renderField "streak" (renderNat h.streak) ++ '\x7d' :: r) = some ([("streak", Json.num (h.streak : ℚ))], r) :=
    parseFields_step_last (parseValue (k + 8)) (k + 1) "streak" (renderNat h.streak) (Json.num (h.streak : ℚ)) r hv7
  have hf6 : parseFields (parseValue (k + 8)) (k + 3)
      (renderField "completedAt" (renderOptStr h.completedAt) ++ ',' :: (renderField "streak" (renderNat h.streak) ++ '\x7d' :: r)) =
      some ([("completedAt", (match h.completedAt with | none => Json.null | some s => Json.str s)), ("streak", Json.num (h.streak : ℚ))], r) :=
    parseFields_step_comma (parseValue (k + 8)) (k + 2) "completedAt" (renderOptStr h.completedAt) ((match h.completedAt with | none => Json.null | some s => Json.str s))
      (renderField "streak" (renderNat h.streak) ++ '\x7d' :: r) [("streak", Json.num (h.streak : ℚ))] r hv6 hf7
  have hf5 : parseFields (parseValue (k + 8)) (k + 4)
      (renderField "createdAt" (renderString h.createdAt) ++ ',' :: (renderField "completedAt" (renderOptStr h.completedAt) ++ ',' :: (renderField "streak" (renderNat h.streak) ++ '\x7d' :: r))) =
      some ([("createdAt", Json.str h.createdAt), ("completedAt", (match h.completedAt with | none => Json.null | some s => Json.str s)), ("streak", Json.num (h.streak : ℚ))], r) :=
    parseFields_step_comma (parseValue (k + 8)) (k + 3) "createdAt" (renderString h.createdAt) (Json.str h.createdAt)
      (renderField "completedAt" (renderOptStr h.completedAt) ++ ',' :: (renderField "streak" (renderNat h.streak) ++ '\x7d' :: r)) [("completedAt", (match h.completedAt with | none => Json.null | some s => Json.str s)), ("streak", Json.num (h.streak : ℚ))] r hv5 hf6
  have hf4 : parseFields (parseValue (k + 8)) (k + 5)
      (renderField "completed" (renderBool h.completed) ++ ',' :: (renderField "createdAt" (renderString h.createdAt) ++ ',' :: (renderField "completedAt" (renderOptStr h.completedAt) ++ ',' :: (renderField "streak" (renderNat h.streak) ++ '\x7d' :: r)))) =
      some ([("completed", Json.bool h.completed), ("createdAt", Json.str h.createdAt), ("completedAt", (match h.completedAt with | none => Json.null | some s => Json.str s)), ("streak", Json.num (h.streak : ℚ))], r) :=
    parseFields_step_comma (parseValue (k + 8)) (k + 4) "completed" (renderBool h.completed) (Json.bool h.completed)
      (renderField "createdAt" (renderString h.createdAt) ++ ',' :: (renderField "completedAt" (renderOptStr h.completedAt) ++ ',' :: (renderField "streak" (renderNat h.streak) ++ '\x7d' :: r))) [("createdAt", Json.str h.createdAt), ("completedAt", (match h.completedAt with | none => Json.null | some s => Json.str s)), ("streak", Json.num (h.streak : ℚ))] r hv4 hf5
  have hf3 : parseFields (parseValue (k + 8)) (k + 6)
      (renderField "category" (renderString h.category) ++ ',' :: (renderField "completed" (renderBool h.completed) ++ ',' :: (renderField "createdAt" (renderString h.createdAt) ++ ',' :: (renderField "completedAt" (renderOptStr h.completedAt) ++ ',' :: (renderField "streak" (renderNat h.streak) ++ '\x7d' :: r))))) =
      some ([("category", Json.str h.category), ("completed", Json.bool h.completed), ("createdAt", Json.str h.createdAt), ("completedAt", (match h.completedAt with | none => Json.null | some s => Json.str s)), ("streak", Json.num (h.streak : ℚ))], r) :=
    parseFields_step_comma (parseValue (k + 8)) (k + 5) "category" (renderString h.category) (Json.str h.category)
      (renderField "completed" (renderBool h.completed) ++ ',' :: (renderField "createdAt" (renderString h.createdAt) ++ ',' :: (renderField "completedAt" (renderOptStr h.completedAt) ++ ',' :: (renderField "streak" (renderNat h.streak) ++ '\x7d' :: r)))) [("completed", Json.bool h.completed), ("createdAt", Json.str h.createdAt), ("completedAt", (match h.completedAt with | none => Json.null | some s => Json.str s)), ("streak", Json.num (h.streak : ℚ))] r hv3 hf4
  have hf2 : parseFields (parseValue (k + 8)) (k + 7)
      (renderField "name" (renderString h.name) ++ ',' :: (renderField "category" (renderString h.category) ++ ',' :: (renderField "completed" (renderBool h.completed) ++ ',' :: (renderField "createdAt" (renderString h.createdAt) ++ ',' :: (renderField "completedAt" (renderOptStr h.completedAt) ++ ',' :: (renderField "streak" (renderNat h.streak) ++ '\x7d' :: r)))))) =
      some ([("name", Json.str h.name), ("category", Json.str h.category), ("completed", Json.bool h.completed), ("createdAt", Json.str h.createdAt), ("completedAt", (match h.completedAt with | none => Json.null | some s => Json.str s)), ("streak", Json.num (h.streak : ℚ))], r) :=
    parseFields_step_comma (parseValue (k + 8)) (k + 6) "name" (renderString h.name) (Json.str h.name)
      (renderField "category" (renderString h.category) ++ ',' :: (renderField "completed" (renderBool h.completed) ++ ',' :: (renderField "createdAt" (renderString h.createdAt) ++ ',' :: (renderField "completedAt" (renderOptStr h.completedAt) ++ ',' :: (renderField "streak" (renderNat h.streak) ++ '\x7d' :: r))))) [("category", Json.str h.category), ("completed", Json.bool h.completed), ("createdAt", Json.str h.createdAt), ("completedAt", (match h.completedAt with | none => Json.null | some s => Json.str s)), ("streak", Json.num (h.streak : ℚ))] r hv2 hf3
  have hf1 : parseFields (parseValue (k + 8)) (k + 8)
      (renderField "id" (renderNat h.id) ++ ',' :: (renderField "name" (renderString h.name) ++ ',' :: (renderField "category" (renderString h.category) ++ ',' :: (renderField "completed" (renderBool h.completed) ++ ',' :: (renderField "createdAt" (renderString h.createdAt) ++ ',' :: (renderField "completedAt" (renderOptStr h.completedAt) ++ ',' :: (renderField "streak" (renderNat h.streak) ++ '\x7d' :: r))))))) =
      some ([("id", Json.num (h.id : ℚ)), ("name", Json.str h.name), ("category", Json.str h.category), ("completed", Json.bool h.completed), ("createdAt", Json.str h.createdAt), ("completedAt", (match h.completedAt with | none => Json.null | some s => Json.str s)), ("streak", Json.num (h.streak : ℚ))], r) :=
    parseFields_step_comma (parseValue (k + 8)) (k + 7) "id" (renderNat h.id) (Json.num (h.id : ℚ))
      (renderField "name" (renderString h.name) ++ ',' :: (renderField "category" (renderString h.category) ++ ',' :: (renderField "completed" (renderBool h.completed) ++ ',' :: (renderField "createdAt" (renderString h.createdAt) ++ ',' :: (renderField "completedAt" (renderOptStr h.completedAt) ++ ',' :: (renderField "streak" (renderNat h.streak) ++ '\x7d' :: r)))))) [("name", Json.str h.name), ("category", Json.str h.category), ("completed", Json.bool h.completed), ("createdAt", Json.str h.createdAt), ("completedAt", (match h.completedAt with | none => Json.null | some s => Json.str s)), ("streak", Json.num (h.streak : ℚ))] r hv1 hf2
  have hshape : renderHabit h ++ r = '\x7b' :: (renderField "id" (renderNat h.id) ++ ',' :: (renderField "name" (renderString h.name) ++ ',' :: (renderField "category" (renderString h.category) ++ ',' :: (renderField "completed" (renderBool h.completed) ++ ',' :: (renderField "createdAt" (renderString h.createdAt) ++ ',' :: (renderField "completedAt" (renderOptStr h.completedAt) ++ ',' :: (renderField "streak" (renderNat h.streak) ++ '\x7d' :: r))))))) := by
    simp [renderHabit, List.append_assoc]
  rw [show k + 9 = (k + 8) + 1 from rfl, hshape, parseValue,
    skipWs_not_ws '\x7b' _ (by decide)]
  simp only []
  rw [if_neg (by decide : ¬ (('\x7b' : Char) = '"')), if_true]
  rw [renderField_shape "id" (renderNat h.id)]
  rw [skipWs_not_ws '"' _ (by decide)]
  simp only []
  rw [if_neg (by decide : ¬ (('"' : Char) = '\x7d'))]
  rw [← renderField_shape "id" (renderNat h.id)]
  rw [hf1]
  rfl


lemma renderItems_cons (h : Habit) (tl : List Habit) (htl : tl ≠ []) :
    renderItems (h :: tl) = renderHabit h ++ ',' :: renderItems tl := by
  match tl, htl with
  | t :: ts, _ => rfl

lemma parseItems_render (hs : List Habit) (k : Nat) : ∀ (G : Nat) (r : List Char),
    hs ≠ [] → hs.length ≤ G →
    parseItems (parseValue (k + 9)) G (renderItems hs ++ r) =
      some (hs.map habitToJson, r) := by
  induction hs with
  | nil => intro G r hne; exact absurd rfl hne
  | cons h tl ih =>
    intro G r hne hlen
    obtain ⟨G', rfl⟩ : ∃ G', G = G' + 1 := ⟨G - 1, by simp at hlen; omega⟩
    cases tl with
    | nil =>
      rw [show renderItems [h] ++ r = renderHabit h ++ ']' :: r by
        simp [renderItems]]
      rw [parseItems, parseValue_renderHabit k h (']' :: r)]
      simp only []
      rw [skipWs_not_ws ']' _ (by decide)]
      simp
    | cons h2 ts =>
      rw [renderItems_cons h (h2 :: ts) (by simp), List.append_assoc, List.cons_append]
      rw [parseItems, parseValue_renderHabit k h (',' :: (renderItems (h2 :: ts) ++ r))]
      simp only []
      rw [skipWs_not_ws ',' _ (by decide)]
      simp only []
      rw [ih G' r (by simp) (by simp at hlen ⊢; omega)]
      simp

lemma renderHabit_shape (h : Habit) : ∃ u, renderHabit h = '\x7b' :: u :=
  ⟨_, rfl⟩

lemma parseValue_renderTop (c : List Habit) (k : Nat) (r : List Char)
    (hlen : c.length ≤ k) :
    parseValue (k + 10) (renderTop c ++ r) = some (habitsToJson c, r) := by
  cases c with
  | nil =>
    rw [show renderTop [] ++ r = '[' :: ']' :: r from rfl]
    rw [show k + 10 = (k + 9) + 1 from rfl, parseValue]
    rw [skipWs_not_ws '[' _ (by decide)]
    simp only []
    rw [if_neg (by decide : ¬ (('[' : Char) = '"')),
      if_neg (by decide : ¬ (('[' : Char) = '\x7b')), if_true]
    rw [skipWs_not_ws ']' _ (by decide)]
    simp [habitsToJson]
  | cons h tl =>
    rw [show renderTop (h :: tl) ++ r = '[' :: (renderItems (h :: tl) ++ r) from rfl]
    rw [show k + 10 = (k + 9) + 1 from rfl, parseValue]
    rw [skipWs_not_ws '[' _ (by decide)]
    simp only []
    rw [if_neg (by decide : ¬ (('[' : Char) = '"')),
      if_neg (by decide : ¬ (('[' : Char) = '\x7b')), if_true]
    obtain ⟨u, hu⟩ := renderHabit_shape h
    have hshape : ∃ u2, renderItems (h :: tl) ++ r = '\x7b' :: u2 := by
      cases tl with
      | nil =>
        refine ⟨u ++ ']' :: r, ?_⟩
        rw [show renderItems [h] = renderHabit h ++ [']'] from rfl, hu]
        simp
      | cons h2 ts =>
        refine ⟨u ++ ',' :: (renderItems (h2 :: ts) ++ r), ?_⟩
        rw [renderItems_cons h (h2 :: ts) (by simp), hu]
        simp
    obtain ⟨u2, hu2⟩ := hshape
    rw [hu2, skipWs_not_ws '\x7b' _ (by decide)]
    simp only []
    rw [if_neg (by decide : ¬ (('\x7b' : Char) = ']'))]
    rw [← hu2]
    rw [parseItems_render (h :: tl) k (k + 9) r (by simp) (by simp only [List.length_cons] at hlen ⊢; omega)]
    simp [habitsToJson]

lemma renderItems_length (hs : List Habit) : hs.length ≤ (renderItems hs).length := by
  induction hs with
  | nil => simp [renderItems]
  | cons h tl ih =>
    cases tl with
    | nil => simp [renderItems, renderHabit]
    | cons h2 ts =>
      rw [renderItems_cons h (h2 :: ts) (by simp)]
      rw [List.length_append]
      simp only [List.length_cons] at ih ⊢
      have : 1 ≤ (renderHabit h).length := by
        rw [show renderHabit h = '\x7b' :: _ from rfl]
        simp
      omega

lemma renderTop_length (c : List Habit) : c.length ≤ (renderTop c).length := by
  cases c with
  | nil => simp [renderTop]
  | cons h tl =>
    rw [show renderTop (h :: tl) = '[' :: renderItems (h :: tl) from rfl]
    have := renderItems_length (h :: tl)
    simp only [List.length_cons] at this ⊢
    omega

lemma jsonParse_save (c : List Habit) :
    jsonParse (saveHabitsToStorage c) = some (habitsToJson c) := by
  have hdata : (saveHabitsToStorage c).data = renderTop c := rfl
  unfold jsonParse
  rw [hdata]
  have hmain := parseValue_renderTop c ((renderTop c).length + 2) []
    (le_trans (renderTop_length c) (by omega))
  rw [List.append_nil] at hmain
  rw [show (renderTop c).length + 12 = ((renderTop c).length + 2) + 10 from rfl, hmain]
  rfl

lemma jsonToHabit_habitToJson (h : Habit) : jsonToHabit (habitToJson h) = some h := by
  obtain ⟨i, nm, cat, comp, cr, compAt, st⟩ := h
  cases compAt <;> simp [habitToJson, jsonToHabit, jsonToNat, jsonToOptStr]

lemma jsonToHabits_habitsToJson (c : List Habit) :
    jsonToHabits (habitsToJson c) = some c := by
  rw [habitsToJson, jsonToHabits]
  induction c with
  | nil => rfl
  | cons h tl ih =>
    simp only [List.map_cons, jsonToHabitsList, jsonToHabit_habitToJson]
    rw [ih]

/-- Claim C5: serializing any collection and loading it back yields a
state structurally equal to the collection — the loaded value is
exactly the JSON image of the collection (order preserved), and that
image determines the collection via the structural read-back. -/
theorem storage_roundtrip (c : List Habit) :
    loadHabitsFromStorage (some (saveHabitsToStorage c)) = habitsToJson c ∧
    jsonToHabits (habitsToJson c) = some c := by
  constructor
  · have hne : saveHabitsToStorage c ≠ "" := by
      intro hemp
      have hd := congrArg String.data hemp
      rw [show (saveHabitsToStorage c).data = renderTop c from rfl] at hd
      cases c with
      | nil => cases hd
      | cons h tl =>
        rw [show renderTop (h :: tl) = '[' :: renderItems (h :: tl) from rfl] at hd
        cases hd
    unfold loadHabitsFromStorage
    simp only []
    rw [if_neg hne, jsonParse_save]
  · exact jsonToHabits_habitsToJson c

/-- Claim C6: when parsing fails, load returns the empty collection (the
JS `catch` swallows the SyntaxError), and an absent stored value also
yields the empty collection; `loadHabitsFromStorage` is a total
function, so no error propagates to the caller. -/
theorem load_fail_soft :
    (∀ s : String, jsonParse s = none → loadHabitsFromStorage (some s) = Json.arr []) ∧
    loadHabitsFromStorage none = Json.arr [] := by
  refine ⟨?_, rfl⟩
  intro s hs
  unfold loadHabitsFromStorage
  simp only []
  by_cases he : s = ""
  · rw [if_pos he]
  · rw [if_neg he, hs]

/-- Witness for C6 at the concrete malformed input "habits". -/
theorem load_fail_soft_w :
    jsonParse "habits" = none ∧ loadHabitsFromStorage (some "habits") = Json.arr [] :=
  ⟨rfl, load_fail_soft.1 "habits" rfl⟩

/-- Claim C10: load performs no schema validation — the well-formed
JSON text of an empty object is accepted and becomes the in-memory
state as-is, although it is not the image of any habit collection. -/
theorem load_no_validation :
    loadHabitsFromStorage (some "\x7b\x7d") = Json.obj [] ∧
    (∀ hs : List Habit, habitsToJson hs ≠ Json.obj []) := by
  constructor
  · rfl
  · intro hs h
    simp [habitsToJson] at h

/-- Witness for C10: the empty collection's image is not the loaded
object value. -/
theorem load_no_validation_w : habitsToJson [] ≠ Json.obj [] :=
  load_no_validation.2 []
